import Mathlib

set_option maxHeartbeats 1000000

namespace RagApi

/-! Shallow embedding of the RAG-API repository core (src/app).

Python strings are modelled as lists of characters.  The function
`pySplit` models the Python method `str.split()` (split on runs of
whitespace, dropping empty pieces) and `joinSpace` models joining words
with a single space. -/

/-- Auxiliary scanner for `pySplit`: `acc` holds the characters of the
word currently being read, in reverse order. -/
def pySplitAux : List Char → List Char → List (List Char)
  | [], acc => if acc = [] then [] else [acc.reverse]
  | c :: cs, acc =>
    if c.isWhitespace then
      if acc = [] then pySplitAux cs [] else acc.reverse :: pySplitAux cs []
    else
      pySplitAux cs (c :: acc)

/-- Python `text.split()` on a character list. -/
def pySplit (text : List Char) : List (List Char) :=
  pySplitAux text []

/-- Python `" ".join(words)`. -/
def joinSpace (ws : List (List Char)) : List Char :=
  List.intercalate [' '] ws

/-- The while-loop of chunk_text (src/app/utils.py lines 61-64):
`start` is the loop variable, `step` is `max_tokens - overlap`, and each
iteration appends the window `words[start:start + max_tokens]` joined by
spaces, then advances `start` by `step`.  The source loop has no fuel; the
`fuel` argument makes the recursion total, and `chunk_text` passes enough
fuel to cover every run of the source loop that terminates (any run with
`step > 0`). -/
def chunkLoop (words : List (List Char)) (maxTokens step : Nat) : Nat → Nat → List (List Char)
  | 0, _ => []
  | fuel + 1, start =>
    if start < words.length then
      joinSpace ((words.drop start).take maxTokens) ::
        chunkLoop words maxTokens step fuel (start + step)
    else
      []

/-- chunk_text from src/app/utils.py: split into words, then emit windows
of `maxTokens` words advancing by `maxTokens - overlap` words each step. -/
def chunk_text (text : List Char) (maxTokens overlap : Nat) : List (List Char) :=
  let words := pySplit text
  chunkLoop words maxTokens (maxTokens - overlap) (words.length + 1) 0

/-- chunk_text with the default arguments of the source
(max_tokens=500, overlap=100). -/
def chunk_text_default (text : List Char) : List (List Char) :=
  chunk_text text 500 100

/-! Similarity index: FAISS IndexFlatL2 / IndexIDMap.  Embedding vectors
are modelled as lists of integers; the index stores (id, vector) pairs in
insertion order, and exact nearest-neighbour search ranks them by squared
L2 distance, padding the id list with -1 when fewer than k entries exist
(the FAISS sentinel for a missing neighbour). -/

/-- Squared Euclidean distance between two vectors. -/
def l2sq (q v : List Int) : Int :=
  (List.zipWith (fun a b => (a - b) * (a - b)) q v).sum

/-- Insert an (id, distance) pair into a list sorted by ascending distance,
after all strictly closer entries (stable insertion). -/
def insertRanked (x : Int × Int) : List (Int × Int) → List (Int × Int)
  | [] => [x]
  | y :: ys => if y.2 < x.2 then y :: insertRanked x ys else x :: y :: ys

/-- Stable insertion sort by ascending distance. -/
def sortRanked : List (Int × Int) → List (Int × Int)
  | [] => []
  | x :: xs => insertRanked x (sortRanked xs)

/-- FAISS search over an id-mapped flat L2 index: the ids of the k nearest
stored vectors in ascending distance order, padded with -1 up to length k. -/
def faissSearch (entries : List (Nat × List Int)) (q : List Int) (k : Nat) : List Int :=
  let ids := ((sortRanked (entries.map fun e => ((e.1 : Int), l2sq q e.2))).take k).map Prod.fst
  ids ++ List.replicate (k - ids.length) (-1)

/-! Document store state, src/app/vectore_store.py (the IndexIDMap
variant).  Python dicts are modelled as association lists with dict-update
semantics (`setAssoc` replaces in place or appends). -/

/-- Replace the binding for `k` in place, or append it (Python dict
assignment). -/
def setAssoc {κ ν : Type} [BEq κ] : List (κ × ν) → κ → ν → List (κ × ν)
  | [], k, v => [(k, v)]
  | (k2, v2) :: rest, k, v =>
    if k2 == k then (k, v) :: rest else (k2, v2) :: setAssoc rest k v

/-- Delete every binding for `k` (Python dict deletion; dict keys are
unique). -/
def delAssoc {κ ν : Type} [BEq κ] (m : List (κ × ν)) (k : κ) : List (κ × ν) :=
  m.filter fun p => !(p.1 == k)

/-- The metadata record of one document, as stored in the metadata dict
(src/app/vectore_store.py lines 100-105). -/
structure DocMeta where
  content_hash : String
  content : List Char
  chunks : List (List Char)
  faiss_ids : List Nat
deriving Repr, DecidableEq

/-- In-memory state of the id-mapped VectorStore: the FAISS index entries,
the dict from doc_id to record, and the back-reference dict from faiss id
to doc_id. -/
structure VSState where
  entries : List (Nat × List Int)
  metadata : List (String × DocMeta)
  doc_id_by_faiss_id : List (Int × String)
deriving Repr, DecidableEq

/-- A store with no documents (fresh index). -/
def vsEmpty : VSState := ⟨[], [], []⟩

/-- VectorStore._generate_faiss_ids: `list(range(base, base + count))`
with `base = self.index.ntotal` (src/app/vectore_store.py lines 77-79). -/
def generate_faiss_ids (s : VSState) (count : Nat) : List Nat :=
  List.range' s.entries.length count

/-- Outcome of an upsert, spec section 4.3. -/
inductive UpsertOutcome
  | Skipped
  | Inserted
  | Updated
deriving Repr, DecidableEq

/-- Failure of the embedding provider (model.encode raising). -/
inductive EmbedErr
  | providerFailure
deriving Repr, DecidableEq

/-- The tail of VectorStore.upsert after the hash comparison
(src/app/vectore_store.py lines 92-107): chunk the content, embed the
chunks (this call may fail), generate fresh faiss ids, add the vectors
under those ids, record the back-references, and replace the metadata
record.  On an embedding failure the exception propagates and the state
is returned exactly as it was at the raise, since the source mutates
nothing before model.encode returns. -/
def upsertEmbed (embed : List (List Char) → Except EmbedErr (List (List Int)))
    (content_hash doc_id : String) (content : List Char) (s : VSState)
    (outcome : UpsertOutcome) : Except EmbedErr UpsertOutcome × VSState :=
  let chunks := chunk_text_default content
  match embed chunks with
  | .error e => (.error e, s)
  | .ok embeddings =>
    let faiss_ids := generate_faiss_ids s embeddings.length
    (.ok outcome,
      { entries := s.entries ++ List.zip faiss_ids embeddings
        metadata := setAssoc s.metadata doc_id
          ⟨content_hash, content, chunks, faiss_ids⟩
        doc_id_by_faiss_id :=
          faiss_ids.foldl (fun mp fid => setAssoc mp (fid : Int) doc_id)
            s.doc_id_by_faiss_id })

/-- VectorStore.upsert (src/app/vectore_store.py lines 81-108).  The
content hash is passed in (the source computes it from the file bytes);
if the document exists with the same stored hash the call returns without
touching anything. -/
def upsert (embed : List (List Char) → Except EmbedErr (List (List Int)))
    (content_hash doc_id : String) (content : List Char) (s : VSState) :
    Except EmbedErr UpsertOutcome × VSState :=
  match s.metadata.lookup doc_id with
  | some m =>
    if m.content_hash = content_hash then (.ok .Skipped, s)
    else upsertEmbed embed content_hash doc_id content s .Updated
  | none => upsertEmbed embed content_hash doc_id content s .Inserted

/-- One search hit as returned to callers. -/
structure SearchResult where
  doc_id : String
  content : List Char
  chunks : List (List Char)
deriving Repr, DecidableEq

/-- The result-assembly loop of VectorStore.search
(src/app/vectore_store.py lines 119-132): for each returned index id,
skip the -1 sentinel, skip ids whose doc_id is missing or falsy or whose
document no longer has a metadata record, else append the document. -/
def searchLoop (s : VSState) : List Int → List SearchResult
  | [] => []
  | idx :: rest =>
    if idx = -1 then searchLoop s rest
    else
      match s.doc_id_by_faiss_id.lookup idx with
      | none => searchLoop s rest
      | some doc_id =>
        if doc_id = "" then searchLoop s rest
        else
          match s.metadata.lookup doc_id with
          | none => searchLoop s rest
          | some m => ⟨doc_id, m.content, m.chunks⟩ :: searchLoop s rest

/-- VectorStore.search (src/app/vectore_store.py lines 115-132). -/
def search (embedq : List Char → List Int) (s : VSState)
    (query : List Char) (k : Nat) : List SearchResult :=
  searchLoop s (faissSearch s.entries (embedq query) k)

/-- How one id returned by the index is resolved by the searchLoop body:
the -1 sentinel, an unknown id, a falsy doc_id, and a missing metadata
record are all dropped; a resolvable id yields one result. -/
def resolveHit (s : VSState) (idx : Int) : Option SearchResult :=
  if idx = -1 then none
  else
    match s.doc_id_by_faiss_id.lookup idx with
    | none => none
    | some doc_id =>
      if doc_id = "" then none
      else
        match s.metadata.lookup doc_id with
        | none => none
        | some m => some ⟨doc_id, m.content, m.chunks⟩

/-- Outcome of a document removal, spec section 4.3. -/
inductive RemoveOutcome
  | Removed
  | NotFound
deriving Repr, DecidableEq

/-- Modelled from the spec: VectorStore.remove_document is invoked by
ingest_changed_files (src/app/ingest_github_repo.py lines 73 and 96) but
no definition of it exists anywhere under src.  Following spec section
4.3: remove all vector ids of the document from the similarity index
(idempotent), delete the Document Record, persist, and return Removed or
NotFound; NotFound is a normal outcome, not an error.  Persistence writes
a snapshot and does not change the in-memory state. -/
def remove_document (doc_id : String) (s : VSState) : RemoveOutcome × VSState :=
  match s.metadata.lookup doc_id with
  | none => (.NotFound, s)
  | some m =>
    (.Removed,
      { entries := s.entries.filter fun e => !(m.faiss_ids.contains e.1)
        metadata := delAssoc s.metadata doc_id
        doc_id_by_faiss_id :=
          s.doc_id_by_faiss_id.filter fun p =>
            !((m.faiss_ids.map (Int.ofNat)).contains p.1) })

/-- All ids stored in the index are exactly 0,1,...,n-1 in insertion
order.  This holds for the fresh store and is preserved by upsert, since
fresh ids are generated as `range(ntotal, ntotal + count)` and the source
never removes index entries. -/
def idsSequential (s : VSState) : Prop :=
  s.entries.map Prod.fst = List.range s.entries.length

/-! The second store variant, src/app/updated_vector_store.py: a plain
IndexFlatL2 whose vector ids are storage positions, with a positional
doc_id_by_vector_idx list as the back-reference. -/

/-- The metadata record of one document in the updated variant
(src/app/updated_vector_store.py lines 120-125). -/
structure UDocMeta where
  index : Nat
  content_hash : String
  content : List Char
  chunks : List (List Char)
deriving Repr, DecidableEq

/-- In-memory state of the updated VectorStore. -/
structure UState where
  index : List (List Int)
  metadata : List (String × UDocMeta)
  doc_id_by_vector_idx : List String
deriving Repr, DecidableEq

/-- A fresh updated store (empty index, no metadata, empty mapping). -/
def uEmpty : UState := ⟨[], [], []⟩

/-- FAISS search on a flat index without an id map: ids are the storage
positions of the k nearest vectors, padded with -1 up to length k. -/
def faissSearchFlat (vectors : List (List Int)) (q : List Int) (k : Nat) : List Int :=
  faissSearch vectors.enum q k

/-- Python list subscription `l[i]`: non-negative indices from the front,
negative indices from the back, out of range raises IndexError (none). -/
def pyGet {α : Type} (l : List α) (i : Int) : Option α :=
  if 0 ≤ i then l.get? i.toNat
  else if (-i).toNat ≤ l.length then l.get? (l.length - (-i).toNat)
  else none

/-- A raised Python exception. -/
inductive PyErr
  | indexError
deriving Repr, DecidableEq

/-- The result-assembly loop of the updated VectorStore.search
(src/app/updated_vector_store.py lines 181-189): for each returned index
position, if `idx < len(self.doc_id_by_vector_idx)` then subscript the
list with `idx` (Python semantics: a negative `idx` counts from the back
and raises IndexError on an empty list) and append the document if its
doc_id is in metadata; ids failing the length test are skipped.  There is
no check for the FAISS -1 sentinel. -/
def updatedLoop (s : UState) : List Int → Except PyErr (List SearchResult)
  | [] => .ok []
  | idx :: rest =>
    if idx < (s.doc_id_by_vector_idx.length : Int) then
      match pyGet s.doc_id_by_vector_idx idx with
      | none => .error .indexError
      | some doc_id =>
        match s.metadata.lookup doc_id with
        | some m =>
          match updatedLoop s rest with
          | .error e => .error e
          | .ok rs => .ok (⟨doc_id, m.content, m.chunks⟩ :: rs)
        | none => updatedLoop s rest
    else updatedLoop s rest

/-- Updated VectorStore.search (src/app/updated_vector_store.py lines
167-190). -/
def updatedSearch (embedq : List Char → List Int) (s : UState)
    (query : List Char) (k : Nat) : Except PyErr (List SearchResult) :=
  updatedLoop s (faissSearchFlat s.index (embedq query) k)

/-- The three persisted artifacts written by the updated VectorStore.save
(src/app/updated_vector_store.py lines 140-148): the serialized FAISS
index, the pickled metadata dict, and the pickled doc_id_by_vector_idx
list. -/
structure UPersisted where
  indexFile : List (List Int)
  metaFile : List (String × UDocMeta)
  vectorMapFile : List String
deriving Repr, DecidableEq

/-- Updated VectorStore.save: serialize the index, the metadata, and the
vector map (src/app/updated_vector_store.py lines 140-148). -/
def save (s : UState) : UPersisted :=
  ⟨s.index, s.metadata, s.doc_id_by_vector_idx⟩

/-- Updated VectorStore.load: read the index back, load the metadata, and
load the vector map (src/app/updated_vector_store.py lines 150-165; after
a save all three files exist). -/
def load (p : UPersisted) : UState :=
  ⟨p.indexFile, p.metaFile, p.vectorMapFile⟩

/-! Concrete inputs used by witnesses and counterexamples. -/

/-- An embedding provider that maps every chunk to the one-dimensional
vector [v]. -/
def embedConst (v : Int) : List (List Char) → Except EmbedErr (List (List Int)) :=
  fun cs => .ok (cs.map fun _ => [v])

/-- An embedding provider whose call always raises. -/
def embedFail : List (List Char) → Except EmbedErr (List (List Int)) :=
  fun _ => .error .providerFailure

/-- A query embedder mapping every query to the vector [0]. -/
def embedQ0 : List Char → List Int := fun _ => [0]

/-- The store after upserting document "d" with content "cat" and hash
"h1" into a fresh store. -/
def sCat : VSState := (upsert (embedConst 0) "h1" "d" ("cat".toList) vsEmpty).2

/-- The metadata record held by sCat for document "d". -/
def mCat : DocMeta := ⟨"h1", "cat".toList, ["cat".toList], [0]⟩

/-- A store holding one document "d" with two chunks whose two vectors
occupy ids 0 and 1 of the index. -/
def sDup : VSState :=
  ⟨[(0, [0]), (1, [1])],
   [("d", ⟨"h", "cat dog".toList, ["cat".toList, "dog".toList], [0, 1]⟩)],
   [((0 : Int), "d"), ((1 : Int), "d")]⟩

/-- An updated-variant store holding one document "a" with one vector. -/
def uOne : UState :=
  ⟨[[0]], [("a", ⟨0, "h", "x".toList, ["x".toList]⟩)], ["a"]⟩

/-! Lemmas about the chunker. -/

lemma joinSpace_single (w : List Char) : joinSpace [w] = w := by
  simp [joinSpace, List.intercalate]

lemma joinSpace_cons (w w2 : List Char) (ws : List (List Char)) :
    joinSpace (w :: w2 :: ws) = w ++ ' ' :: joinSpace (w2 :: ws) := rfl

/-- Every word produced by pySplitAux is nonempty and whitespace-free. -/
lemma pySplitAux_good :
    ∀ cs acc : List Char, (∀ c ∈ acc, c.isWhitespace = false) →
      ∀ w ∈ pySplitAux cs acc, w ≠ [] ∧ ∀ c ∈ w, c.isWhitespace = false := by
  intro cs
  induction cs with
  | nil =>
    intro acc hacc w hw
    by_cases h : acc = []
    · simp [pySplitAux, h] at hw
    · simp only [pySplitAux, if_neg h, List.mem_singleton] at hw
      subst hw
      refine ⟨by simpa using h, fun c hc => hacc c (List.mem_reverse.mp hc)⟩
  | cons c cs ih =>
    intro acc hacc w hw
    by_cases hws : c.isWhitespace = true
    · by_cases h : acc = []
      · rw [pySplitAux, if_pos hws, if_pos h] at hw
        exact ih [] (by intro x hx; simp at hx) w hw
      · rw [pySplitAux, if_pos hws, if_neg h] at hw
        rcases List.mem_cons.mp hw with h1 | h2
        · subst h1
          refine ⟨by simpa using h, fun x hx => hacc x (List.mem_reverse.mp hx)⟩
        · exact ih [] (by intro x hx; simp at hx) w h2
    · rw [pySplitAux, if_neg hws] at hw
      refine ih (c :: acc) ?_ w hw
      intro x hx
      rcases List.mem_cons.mp hx with rfl | hx2
      · simpa using hws
      · exact hacc x hx2

/-- Every word produced by pySplit is nonempty and whitespace-free. -/
lemma pySplit_good (text : List Char) :
    ∀ w ∈ pySplit text, w ≠ [] ∧ ∀ c ∈ w, c.isWhitespace = false :=
  pySplitAux_good text [] (by intro x hx; simp at hx)

/-- Scanning a whitespace-free word just accumulates its characters. -/
lemma pySplitAux_append (w : List Char) (hw : ∀ c ∈ w, c.isWhitespace = false) :
    ∀ rest acc, pySplitAux (w ++ rest) acc = pySplitAux rest (w.reverse ++ acc) := by
  induction w with
  | nil => intro rest acc; simp
  | cons c cs ih =>
    intro rest acc
    have hc : c.isWhitespace = false := hw c (by simp)
    have hcs : ∀ x ∈ cs, x.isWhitespace = false := fun x hx => hw x (by simp [hx])
    rw [List.cons_append, pySplitAux, if_neg (by simp [hc]), ih hcs rest (c :: acc)]
    rw [List.reverse_cons, List.append_assoc, List.singleton_append]

/-- Splitting the space-join of good words recovers exactly those words. -/
lemma pySplit_joinSpace :
    ∀ ws : List (List Char),
      (∀ w ∈ ws, w ≠ [] ∧ ∀ c ∈ w, c.isWhitespace = false) →
      pySplit (joinSpace ws) = ws := by
  intro ws
  induction ws with
  | nil => intro _; rfl
  | cons w ws ih =>
    intro h
    obtain ⟨hne, hchars⟩ := h w (by simp)
    cases ws with
    | nil =>
      rw [joinSpace_single, pySplit]
      have h1 : pySplitAux w [] = pySplitAux [] w.reverse := by
        simpa using pySplitAux_append w hchars [] []
      rw [h1]
      simp [pySplitAux, hne]
    | cons w2 ws2 =>
      rw [joinSpace_cons, pySplit, pySplitAux_append w hchars (' ' :: joinSpace (w2 :: ws2)) []]
      rw [List.append_nil, pySplitAux, if_pos (by decide), if_neg (by simpa using hne)]
      rw [List.reverse_reverse]
      exact congrArg (w :: ·) (ih fun x hx => h x (by simp [hx]))

/-- With zero overlap the loop advances by a full window each step, so the
emitted windows partition the word list from `start` on. -/
lemma chunkLoop_concat (words : List (List Char)) (maxT : Nat) (hmax : 0 < maxT)
    (hgood : ∀ w ∈ words, w ≠ [] ∧ ∀ c ∈ w, c.isWhitespace = false) :
    ∀ fuel start, words.length - start < fuel →
      ((chunkLoop words maxT maxT fuel start).map pySplit).flatten = words.drop start := by
  intro fuel
  induction fuel with
  | zero => intro start h; exact absurd h (Nat.not_lt_zero _)
  | succ fuel ih =>
    intro start h
    by_cases hs : start < words.length
    · rw [chunkLoop, if_pos hs, List.map_cons, List.flatten_cons]
      have hwin : pySplit (joinSpace ((words.drop start).take maxT))
          = (words.drop start).take maxT :=
        pySplit_joinSpace _ fun w hw =>
          hgood w (List.mem_of_mem_drop (List.mem_of_mem_take hw))
      rw [hwin, ih (start + maxT) (by omega), ← List.drop_drop]
      exact List.take_append_drop _ _
    · rw [chunkLoop, if_neg hs, List.drop_eq_nil_of_le (by omega)]
      rfl

/-! Lemmas about upsert. -/

/-- Unfolding of upsertEmbed when the embedding call succeeds. -/
lemma upsertEmbed_ok (embed : List (List Char) → Except EmbedErr (List (List Int)))
    (content_hash doc_id : String) (content : List Char) (s : VSState)
    (oc : UpsertOutcome) (es : List (List Int))
    (he : embed (chunk_text_default content) = .ok es) :
    upsertEmbed embed content_hash doc_id content s oc
      = (.ok oc,
         ⟨s.entries ++ List.zip (List.range' s.entries.length es.length) es,
          setAssoc s.metadata doc_id
            ⟨content_hash, content, chunk_text_default content,
             List.range' s.entries.length es.length⟩,
          (List.range' s.entries.length es.length).foldl
            (fun mp fid => setAssoc mp (fid : Int) doc_id) s.doc_id_by_faiss_id⟩) := by
  simp only [upsertEmbed, generate_faiss_ids, he]

/-- Unfolding of upsertEmbed when the embedding call raises. -/
lemma upsertEmbed_error (embed : List (List Char) → Except EmbedErr (List (List Int)))
    (content_hash doc_id : String) (content : List Char) (s : VSState)
    (oc : UpsertOutcome) (e : EmbedErr)
    (he : embed (chunk_text_default content) = .error e) :
    upsertEmbed embed content_hash doc_id content s oc = (.error e, s) := by
  simp only [upsertEmbed, he]

/-- Appending freshly numbered entries keeps the ids sequential, and the
appended ids are strictly above every previously stored id. -/
lemma ids_append_fresh (s : VSState) (es : List (List Int)) (hseq : idsSequential s) :
    ((s.entries ++ List.zip (List.range' s.entries.length es.length) es).map Prod.fst
        = List.range (s.entries ++ List.zip (List.range' s.entries.length es.length) es).length) ∧
      ∀ newId ∈ (s.entries ++ List.zip (List.range' s.entries.length es.length) es).map Prod.fst,
        newId ∉ s.entries.map Prod.fst →
        ∀ old ∈ s.entries.map Prod.fst, old < newId := by
  have hzip : (List.zip (List.range' s.entries.length es.length) es).map Prod.fst
      = List.range' s.entries.length es.length :=
    List.map_fst_zip _ _ (by simp)
  have hents : ((s.entries ++ List.zip (List.range' s.entries.length es.length) es).map Prod.fst)
      = List.range s.entries.length ++ List.range' s.entries.length es.length := by
    rw [List.map_append, hzip, hseq]
  constructor
  · rw [hents, List.length_append, List.length_zip, List.length_range', Nat.min_self]
    rw [List.range_eq_range', List.range_eq_range']
    have h := List.range'_append_1 0 s.entries.length es.length
    rw [Nat.zero_add] at h
    rw [Nat.add_comm s.entries.length es.length]
    exact h
  · intro newId hnew hnot old hold
    rw [hents] at hnew
    rw [hseq] at hnot
    have holdn : old < s.entries.length := List.mem_range.mp (by rwa [hseq] at hold)
    rcases List.mem_append.mp hnew with h1 | h2
    · exact absurd h1 hnot
    · have hge := (List.mem_range'_1.mp h2).1
      omega

/-- The fresh-id invariant and freshness of newly assigned ids, for the
successful embedding path. -/
lemma upsertEmbed_ids (embed : List (List Char) → Except EmbedErr (List (List Int)))
    (content_hash doc_id : String) (content : List Char) (s : VSState)
    (oc : UpsertOutcome) (es : List (List Int))
    (hseq : idsSequential s)
    (he : embed (chunk_text_default content) = .ok es) :
    idsSequential (upsertEmbed embed content_hash doc_id content s oc).2 ∧
      ∀ newId ∈ ((upsertEmbed embed content_hash doc_id content s oc).2.entries.map Prod.fst),
        newId ∉ s.entries.map Prod.fst →
        ∀ old ∈ s.entries.map Prod.fst, old < newId := by
  rw [upsertEmbed_ok embed content_hash doc_id content s oc es he]
  exact ids_append_fresh s es hseq

/-- Lookup after deleting a key never finds that key. -/
lemma lookup_delAssoc {κ ν : Type} [BEq κ] [LawfulBEq κ] (m : List (κ × ν)) (k : κ) :
    (delAssoc m k).lookup k = none := by
  induction m with
  | nil => rfl
  | cons p rest ih =>
    obtain ⟨k2, v2⟩ := p
    by_cases h : k2 = k
    · have hd : delAssoc ((k2, v2) :: rest) k = delAssoc rest k := by
        simp [delAssoc, h]
      rw [hd]
      exact ih
    · have hd : delAssoc ((k2, v2) :: rest) k = (k2, v2) :: delAssoc rest k := by
        simp [delAssoc, h]
      rw [hd]
      have hk : (k == k2) = false := beq_false_of_ne fun hkk => h hkk.symm
      simp [List.lookup, hk, ih]

/-! Claim theorems. -/

/-- C9: chunking with overlap 0 and any positive max size, then
concatenating the token sequences of the produced chunks, yields exactly
the whitespace token sequence of the input; empty input yields no
chunks. -/
theorem chunk_text_zero_overlap_exact (text : List Char) (maxT : Nat) (hmax : 0 < maxT) :
    ((chunk_text text maxT 0).map pySplit).flatten = pySplit text ∧
      chunk_text [] maxT 0 = [] := by
  constructor
  · have h := chunkLoop_concat (pySplit text) maxT hmax (pySplit_good text)
      ((pySplit text).length + 1) 0 (by omega)
    simpa [chunk_text] using h
  · rw [chunk_text]
    rfl

/-- Witness for C9 at a concrete input. -/
theorem chunk_text_zero_overlap_exact_witness :
    0 < 2 ∧
      ((((chunk_text ("cat dog fish".toList) 2 0).map pySplit).flatten
          = pySplit ("cat dog fish".toList)) ∧
        chunk_text [] 2 0 = []) :=
  ⟨by decide, chunk_text_zero_overlap_exact ("cat dog fish".toList) 2 (by decide)⟩

/-- C7 (code bug in chunk_text, src/app/utils.py): the source performs no
validation of overlap against max_tokens.  With overlap = max_tokens
(here both 2, on the two-word input "a b") the advance max_tokens -
overlap is 0, the loop guard start < len(words) stays true forever, and
every iteration emits the same chunk: for every fuel bound the loop body
runs exactly fuel times and never exits.  So on this input the Python
loop never terminates and keeps producing chunks, instead of raising a
configuration error before any chunking attempt as the claim states. -/
theorem chunk_text_overlap_eq_max_diverges :
    ∀ fuel, chunkLoop (pySplit ("a b".toList)) 2 (2 - 2) fuel 0
      = List.replicate fuel ("a b".toList) := by
  intro fuel
  induction fuel with
  | zero => rfl
  | succ n ih =>
    rw [chunkLoop, if_pos (by decide)]
    rw [show joinSpace (((pySplit ("a b".toList)).drop 0).take 2) = "a b".toList by decide]
    rw [List.replicate_succ]
    exact congrArg (_ :: ·) ih

/-- C2: when the document exists and its stored hash equals the new hash,
upsert returns Skipped and leaves the whole store untouched, for every
embedding provider (so no embedding call can influence the result). -/
theorem upsert_skips_unchanged (content_hash doc_id : String) (content : List Char)
    (s : VSState) (m : DocMeta)
    (hm : s.metadata.lookup doc_id = some m)
    (hh : m.content_hash = content_hash) :
    ∀ embed, upsert embed content_hash doc_id content s = (.ok .Skipped, s) := by
  intro embed
  simp only [upsert, hm, if_pos hh]

/-- Witness for C2: re-upserting document "d" with its stored hash "h1"
is skipped even under an always-failing embedding provider. -/
theorem upsert_skips_unchanged_witness :
    upsert embedFail "h1" "d" ("changed".toList) sCat = (.ok .Skipped, sCat) :=
  upsert_skips_unchanged "h1" "d" ("changed".toList) sCat mCat rfl rfl embedFail

/-- C1 counterexample: starting from the store sCat holding document "d"
(hash "h1", one chunk, vector id 0), upserting "d" with different hash
"h2" leaves the index with 2 vectors while the chunk count of the current
generation of every document sums to 1; the old id 0 is still bound to
"d" in the back-reference and is still returned by index search, so the
old generation remains reachable and the claimed equality fails. -/
theorem upsert_changed_leaks_counterexample :
    (upsert (embedConst 5) "h2" "d" ("dog".toList) sCat).2.entries.length = 2 ∧
      ((upsert (embedConst 5) "h2" "d" ("dog".toList) sCat).2.metadata.map
          fun p => p.2.chunks.length).sum = 1 ∧
      (2 : Nat) ≠ 1 ∧
      (upsert (embedConst 5) "h2" "d" ("dog".toList) sCat).2.doc_id_by_faiss_id.lookup
          (0 : Int) = some "d" ∧
      faissSearch (upsert (embedConst 5) "h2" "d" ("dog".toList) sCat).2.entries [0] 1
        = [0] :=
  ⟨rfl, rfl, by decide, rfl, rfl⟩

/-- C1 amended: upserting an existing doc_id with a different stored hash
returns Updated but does not remove the old generation of vectors: the new
vectors are appended after all existing index entries under fresh ids, so
the total vector count afterwards is the previous count plus the new
embedding count (old vectors are not retired). -/
theorem upsert_changed_appends_without_removal
    (embed : List (List Char) → Except EmbedErr (List (List Int)))
    (content_hash doc_id : String) (content : List Char) (s : VSState) (m : DocMeta)
    (es : List (List Int))
    (hm : s.metadata.lookup doc_id = some m)
    (hh : m.content_hash ≠ content_hash)
    (he : embed (chunk_text_default content) = .ok es) :
    (upsert embed content_hash doc_id content s).1 = .ok .Updated ∧
      (upsert embed content_hash doc_id content s).2.entries
        = s.entries ++ List.zip (List.range' s.entries.length es.length) es ∧
      (upsert embed content_hash doc_id content s).2.entries.length
        = s.entries.length + es.length := by
  have hu : upsert embed content_hash doc_id content s
      = upsertEmbed embed content_hash doc_id content s .Updated := by
    simp only [upsert, hm, if_neg (fun h => hh h)]
  rw [hu, upsertEmbed_ok embed content_hash doc_id content s .Updated es he]
  refine ⟨rfl, rfl, ?_⟩
  simp

/-- Witness for the amended C1 at the concrete leak scenario. -/
theorem upsert_changed_appends_without_removal_witness :
    (upsert (embedConst 5) "h2" "d" ("dog".toList) sCat).1 = .ok .Updated ∧
      (upsert (embedConst 5) "h2" "d" ("dog".toList) sCat).2.entries
        = sCat.entries ++ List.zip (List.range' sCat.entries.length 1) [[5]] ∧
      (upsert (embedConst 5) "h2" "d" ("dog".toList) sCat).2.entries.length
        = sCat.entries.length + 1 :=
  upsert_changed_appends_without_removal (embedConst 5) "h2" "d" ("dog".toList)
    sCat mCat [[5]] rfl (by decide) rfl

/-- C8: if the embedding-provider call inside upsert raises, the store
state returned is exactly the prior state: no vector, no back-reference
and no metadata record is added or changed; when the document was not
present the error is surfaced unchanged. -/
theorem upsert_embed_failure_leaves_state
    (embed : List (List Char) → Except EmbedErr (List (List Int)))
    (content_hash doc_id : String) (content : List Char) (s : VSState) (e : EmbedErr)
    (he : embed (chunk_text_default content) = .error e) :
    (upsert embed content_hash doc_id content s).2 = s ∧
      (s.metadata.lookup doc_id = none →
        upsert embed content_hash doc_id content s = (.error e, s)) := by
  constructor
  · cases hm : s.metadata.lookup doc_id with
    | none =>
      simp only [upsert, hm]
      rw [upsertEmbed_error embed content_hash doc_id content s .Inserted e he]
    | some m =>
      by_cases hh : m.content_hash = content_hash
      · simp only [upsert, hm, if_pos hh]
      · simp only [upsert, hm, if_neg hh]
        rw [upsertEmbed_error embed content_hash doc_id content s .Updated e he]
  · intro hm
    simp only [upsert, hm]
    exact upsertEmbed_error embed content_hash doc_id content s .Inserted e he

/-- Witness for C8: a failing provider leaves the fresh store untouched. -/
theorem upsert_embed_failure_leaves_state_witness :
    (upsert embedFail "h1" "d" ("cat".toList) vsEmpty).2 = vsEmpty ∧
      (vsEmpty.metadata.lookup "d" = none →
        upsert embedFail "h1" "d" ("cat".toList) vsEmpty
          = (.error .providerFailure, vsEmpty)) :=
  upsert_embed_failure_leaves_state embedFail "h1" "d" ("cat".toList) vsEmpty
    .providerFailure rfl

/-- C10: when all stored ids are 0..n-1 in insertion order (true of every
reachable state, since the source never removes index entries and ids are
generated as range(ntotal, ntotal+count)), upsert preserves that shape,
and every id newly handed out by the upsert is strictly greater than
every previously assigned id. -/
theorem upsert_ids_fresh_monotone
    (embed : List (List Char) → Except EmbedErr (List (List Int)))
    (content_hash doc_id : String) (content : List Char) (s : VSState)
    (hseq : idsSequential s) :
    idsSequential (upsert embed content_hash doc_id content s).2 ∧
      ∀ newId ∈ ((upsert embed content_hash doc_id content s).2.entries.map Prod.fst),
        newId ∉ s.entries.map Prod.fst →
        ∀ old ∈ s.entries.map Prod.fst, old < newId := by
  cases hm : s.metadata.lookup doc_id with
  | some m =>
    by_cases hh : m.content_hash = content_hash
    · have hu : upsert embed content_hash doc_id content s = (.ok .Skipped, s) := by
        simp only [upsert, hm, if_pos hh]
      rw [hu]
      exact ⟨hseq, fun newId hnew hnot old hold => absurd hnew hnot⟩
    · have hu : upsert embed content_hash doc_id content s
          = upsertEmbed embed content_hash doc_id content s .Updated := by
        simp only [upsert, hm, if_neg hh]
      rw [hu]
      cases he : embed (chunk_text_default content) with
      | error e =>
        rw [upsertEmbed_error embed content_hash doc_id content s .Updated e he]
        exact ⟨hseq, fun newId hnew hnot old hold => absurd hnew hnot⟩
      | ok es => exact upsertEmbed_ids embed content_hash doc_id content s .Updated es hseq he
  | none =>
    have hu : upsert embed content_hash doc_id content s
        = upsertEmbed embed content_hash doc_id content s .Inserted := by
      simp only [upsert, hm]
    rw [hu]
    cases he : embed (chunk_text_default content) with
    | error e =>
      rw [upsertEmbed_error embed content_hash doc_id content s .Inserted e he]
      exact ⟨hseq, fun newId hnew hnot old hold => absurd hnew hnot⟩
    | ok es => exact upsertEmbed_ids embed content_hash doc_id content s .Inserted es hseq he

/-- Witness for C10: upserting a second document into sCat keeps ids
sequential and assigns only fresh larger ids. -/
theorem upsert_ids_fresh_monotone_witness :
    idsSequential (upsert (embedConst 7) "h9" "e" ("fish".toList) sCat).2 ∧
      ∀ newId ∈ ((upsert (embedConst 7) "h9" "e" ("fish".toList) sCat).2.entries.map Prod.fst),
        newId ∉ sCat.entries.map Prod.fst →
        ∀ old ∈ sCat.entries.map Prod.fst, old < newId :=
  upsert_ids_fresh_monotone (embedConst 7) "h9" "e" ("fish".toList) sCat
    (by unfold idsSequential; decide)

/-- C4 (spec-modelled remove_document): removing an absent doc_id returns
NotFound and is the identity on the store, so the index vector count and
all records are unchanged; removing a present doc_id returns Removed,
drops every index entry carrying one of the vector ids of that document,
and deletes its record. -/
theorem remove_document_correct (doc_id : String) (s : VSState) :
    (s.metadata.lookup doc_id = none →
        remove_document doc_id s = (.NotFound, s)) ∧
      ∀ m, s.metadata.lookup doc_id = some m →
        (remove_document doc_id s).1 = .Removed ∧
          (∀ e ∈ (remove_document doc_id s).2.entries,
            e ∈ s.entries ∧ e.1 ∉ m.faiss_ids) ∧
          (remove_document doc_id s).2.metadata.lookup doc_id = none := by
  constructor
  · intro hm
    simp only [remove_document, hm]
  · intro m hm
    have hr : remove_document doc_id s
        = (.Removed,
           ⟨s.entries.filter fun e => !(m.faiss_ids.contains e.1),
            delAssoc s.metadata doc_id,
            s.doc_id_by_faiss_id.filter fun p =>
              !((m.faiss_ids.map (Int.ofNat)).contains p.1)⟩) := by
      simp only [remove_document, hm]
    rw [hr]
    refine ⟨rfl, ?_, lookup_delAssoc s.metadata doc_id⟩
    intro e he
    have h := List.mem_filter.mp he
    refine ⟨h.1, fun hmem => ?_⟩
    have h2 := h.2
    simp [List.contains] at h2
    exact h2 hmem

/-- Witness for C4: removing the never-seen "x" from sCat is a NotFound
no-op, and removing the present "d" retires its vector id and record. -/
theorem remove_document_correct_witness :
    remove_document "x" sCat = (.NotFound, sCat) ∧
      ((remove_document "d" sCat).1 = .Removed ∧
        (∀ e ∈ (remove_document "d" sCat).2.entries,
          e ∈ sCat.entries ∧ e.1 ∉ mCat.faiss_ids) ∧
        (remove_document "d" sCat).2.metadata.lookup "d" = none) :=
  ⟨(remove_document_correct "x" sCat).1 rfl,
   (remove_document_correct "d" sCat).2 mCat rfl⟩

/-- C5 counterexample: in the store sDup, both chunks of document "d"
rank in the top 2 for the query, and search returns "d" twice instead of
exactly once. -/
theorem search_no_dedup_counterexample :
    (search embedQ0 sDup ("q".toList) 2).map SearchResult.doc_id = ["d", "d"] ∧
      ((search embedQ0 sDup ("q".toList) 2).map SearchResult.doc_id).count "d" = 2 ∧
      (2 : Nat) ≠ 1 :=
  ⟨rfl, rfl, by decide⟩

/-- C5 amended: search performs no deduplication by doc_id: it returns
one result per top-k hit that resolves to a live document, in rank order,
so a document with several chunks in the top-k appears once per such
chunk. -/
theorem search_one_result_per_hit (embedq : List Char → List Int) (s : VSState)
    (query : List Char) (k : Nat) :
    search embedq s query k
      = (faissSearch s.entries (embedq query) k).filterMap (resolveHit s) := by
  rw [search]
  generalize faissSearch s.entries (embedq query) k = ids
  induction ids with
  | nil => rfl
  | cons idx rest ih =>
    by_cases h1 : idx = -1
    · simp [searchLoop, resolveHit, h1, ih]
    · cases h2 : s.doc_id_by_faiss_id.lookup idx with
      | none => simp [searchLoop, resolveHit, h1, h2, ih]
      | some doc_id =>
        by_cases h3 : doc_id = ""
        · simp [searchLoop, resolveHit, h1, h2, h3, ih]
        · cases h4 : s.metadata.lookup doc_id with
          | none => simp [searchLoop, resolveHit, h1, h2, h3, h4, ih]
          | some m => simp [searchLoop, resolveHit, h1, h2, h3, h4, ih]

/-- C6 (code bug in the updated VectorStore.search,
src/app/updated_vector_store.py lines 181-189): the loop tests only
idx < len(doc_id_by_vector_idx), so the FAISS sentinel -1 passes the test
and subscripts the list at -1.  On a fresh store with 0 < k entries the
subscription raises IndexError instead of returning the empty sequence;
on a store with one entry and k = 5 the -1 entries resolve to the last
document, so the single document is returned five times (four synthetic
results) instead of exactly once.  The sibling implementation
(src/app/vectore_store.py line 121) skips -1 and returns exactly the
entries present, which is the behaviour the claim and spec describe. -/
theorem updated_search_fewer_than_k_misbehaves :
    updatedSearch embedQ0 uEmpty ("anything".toList) 5 = .error .indexError ∧
      updatedSearch embedQ0 uOne ("anything".toList) 5
        = .ok (List.replicate 5 ⟨"a", "x".toList, ["x".toList]⟩) ∧
      search embedQ0 vsEmpty ("anything".toList) 5 = [] :=
  ⟨rfl, rfl, rfl⟩

/-- C3: saving the updated store and loading the snapshot into a fresh
store reproduces the state exactly (index, metadata table and
back-reference list all round-trip), hence search over the restored store
agrees with search over the original for every query and k. -/
theorem save_load_roundtrip (s : UState) (embedq : List Char → List Int)
    (query : List Char) (k : Nat) :
    load (save s) = s ∧
      updatedSearch embedq (load (save s)) query k = updatedSearch embedq s query k :=
  ⟨rfl, rfl⟩

end RagApi
